import Mathlib

/-!
Verification of the serial command transport and bulk-transfer engine of the
sensor console (source file src/source/full_console.py).

The Python source is shallowly embedded as executable Lean definitions:

* string helpers model the Python `str` operations used by the source
  (`strip`, `lower`/`upper`, `split`, slicing off a leading `0x`);
* `parseInt10` and `hexParseInt` model `int(s, 10)` and `int(s, 16)` on
  ASCII input, including the sign, the optional `0x` marker for base 16 and
  the single-underscore digit separators Python accepts;
* `sendCmd` models `SensorLink.send_cmd`: the finite list of argument lines
  stands for the lines read from the port before the deadline elapses;
* `linkConnect` models `SensorLink.connect` over an oracle giving the
  outcome of the port-open call and of the initial verbose-off command;
* `guiWrite`, `clampMsbWrite`, `blcOffsetWrite`, `presetGammaLoad` model the
  register and coefficient write handlers of `SensorGUI`;
* `loadGammaFile` models `SensorGUI._load_gamma_file` on the list of lines
  of the chosen file;
* `gammaRun` models `SensorGUI._gamma_load_worker`: the send oracle gives,
  per index, either the response of `send_cmd` or the raised transport
  error, and the result is the ordered list of emitted events together with
  the terminal job status.
-/

/-! ## Python string primitives -/

/-- ASCII whitespace, as recognised by `str.strip` and `str.split`. -/
def isPySpace (c : Char) : Bool :=
  c = ' ' || c = '\t' || c = '\n' || c = '\r' || c = '\x0b' || c = '\x0c'

/-- Model of `s.strip()`: remove leading and trailing whitespace. -/
def pyStrip (s : String) : String :=
  String.mk (((s.data.dropWhile isPySpace).reverse.dropWhile isPySpace).reverse)

/-- Model of `s.upper()` on ASCII input. -/
def pyUpper (s : String) : String :=
  String.mk (s.data.map Char.toUpper)

/-- Model of the idiom `if value.lower().startswith("0x"): value = value[2:]`
used throughout the source to drop an optional hex marker. -/
def strip0x (s : String) : String :=
  match s.data with
  | '0' :: c :: rest => if c = 'x' || c = 'X' then String.mk rest else s
  | _ => s

/-- Model of `ln.split()[0]`: the first whitespace-delimited token of a
line (empty when the line is all whitespace). -/
def firstToken (s : String) : String :=
  String.mk ((s.data.dropWhile isPySpace).takeWhile (fun c => !isPySpace c))

/-! ## Numeric parsing, modelling Python int(s, base) on ASCII input -/

def isDig (c : Char) : Bool := '0' ≤ c && c ≤ '9'

def digVal (c : Char) : Nat := c.toNat - 48

/-- Digits after the first one: Python allows a single underscore between
two digits, nowhere else. -/
def parseDigRest : List Char → Nat → Option Nat
  | [], acc => some acc
  | '_' :: c :: rest, acc =>
      if isDig c then parseDigRest rest (acc * 10 + digVal c) else none
  | c :: rest, acc =>
      if isDig c then parseDigRest rest (acc * 10 + digVal c) else none

/-- Unsigned decimal digit group: one digit, then digits optionally
separated by single underscores. -/
def parseUDigits : List Char → Option Nat
  | c :: rest => if isDig c then parseDigRest rest (digVal c) else none
  | [] => none

/-- Model of `int(s, 10)` on an ASCII string with no surrounding
whitespace: optional sign, then a decimal digit group. -/
def parseInt10 (s : String) : Option Int :=
  match s.data with
  | '+' :: rest => (parseUDigits rest).map Int.ofNat
  | '-' :: rest => (parseUDigits rest).map (fun n => -(Int.ofNat n))
  | cs => (parseUDigits cs).map Int.ofNat

def isHexDig (c : Char) : Bool :=
  isDig c || ('a' ≤ c && c ≤ 'f') || ('A' ≤ c && c ≤ 'F')

def hexVal (c : Char) : Nat :=
  if isDig c then c.toNat - 48
  else if 'a' ≤ c && c ≤ 'f' then c.toNat - 87
  else c.toNat - 55

def parseHexRest : List Char → Nat → Option Nat
  | [], acc => some acc
  | '_' :: c :: rest, acc =>
      if isHexDig c then parseHexRest rest (acc * 16 + hexVal c) else none
  | c :: rest, acc =>
      if isHexDig c then parseHexRest rest (acc * 16 + hexVal c) else none

/-- Hex digit group: one hex digit then hex digits optionally separated by
single underscores. -/
def parseUHexCore : List Char → Option Nat
  | c :: rest => if isHexDig c then parseHexRest rest (hexVal c) else none
  | [] => none

/-- Body after an explicit `0x` marker; Python also allows one underscore
directly after the marker. -/
def parseHexBody : List Char → Option Nat
  | '_' :: rest => parseUHexCore rest
  | cs => parseUHexCore cs

/-- Unsigned part of `int(s, 16)`: optional `0x` or `0X` marker, then a hex
digit group. -/
def parseUHex : List Char → Option Nat
  | '0' :: 'x' :: rest => parseHexBody rest
  | '0' :: 'X' :: rest => parseHexBody rest
  | cs => parseUHexCore cs

/-- Model of `int(s, 16)` on an ASCII string with no surrounding
whitespace. -/
def hexParseInt (s : String) : Option Int :=
  match s.data with
  | '+' :: rest => (parseUHex rest).map Int.ofNat
  | '-' :: rest => (parseUHex rest).map (fun n => -(Int.ofNat n))
  | cs => (parseUHex cs).map Int.ofNat

/-! ## Numeric rendering, modelling str(n) and the X format conversions -/

def decDigitChar (n : Nat) : Char := Char.ofNat (48 + n)

/-- Decimal digits of a natural number, most significant first; the first
argument is recursion fuel (20 is enough for any word handled here). -/
def natDecDigits : Nat → Nat → List Char
  | 0, _ => []
  | fuel + 1, n =>
      if n < 10 then [decDigitChar n]
      else natDecDigits fuel (n / 10) ++ [decDigitChar (n % 10)]

def natDec (n : Nat) : String := String.mk (natDecDigits 20 n)

/-- Model of Python `str` on an `int` value: minus sign for negatives, no
plus sign, no leading zeros. -/
def renderInt (n : Int) : String :=
  if n < 0 then "-" ++ natDec n.natAbs else natDec n.toNat

def hexDigitChar (n : Nat) : Char :=
  if n < 10 then Char.ofNat (48 + n) else Char.ofNat (55 + n)

/-- Uppercase hex digits of a natural number, most significant first,
empty for zero; the first argument is recursion fuel. -/
def hexChars : Nat → Nat → List Char
  | 0, _ => []
  | fuel + 1, n =>
      if n = 0 then [] else hexChars fuel (n / 16) ++ [hexDigitChar (n % 16)]

/-- Model of the Python format conversion X: minimal uppercase hex, the
single digit 0 for zero. -/
def hexStr (n : Nat) : String :=
  if n = 0 then "0" else String.mk (hexChars 16 n)

/-- Model of a zero-padded Python format conversion such as 02X or 08X:
pad `hexStr` on the left with zeros up to width `w`. -/
def hexPad (w n : Nat) : String :=
  String.mk (List.replicate (w - (hexStr n).data.length) '0') ++ hexStr n

/-- An uppercase hex digit character. -/
def isUpHex (c : Char) : Bool :=
  ('0' ≤ c && c ≤ '9') || ('A' ≤ c && c ≤ 'F')

/-! ## Wire lines and their token structure -/

/-- Split a string at single space characters; adjacent separators yield
empty tokens.  This is the token structure the device reads off a wire
line. -/
def splitSp : List Char → List (List Char)
  | [] => [[]]
  | c :: rest =>
      if c = ' ' then [] :: splitSp rest
      else
        match splitSp rest with
        | t :: ts => (c :: t) :: ts
        | [] => [[c]]

def tokens (s : String) : List String :=
  (splitSp s.data).map String.mk

/-- A usable wire token: non-empty and free of space characters. -/
def tokOk (s : String) : Bool :=
  !s.isEmpty && s.data.all (fun c => c != ' ')

/-- Join tokens with single spaces, the way the f-strings of the source
interpolate their arguments. -/
def joinSp : List String → String
  | [] => ""
  | [x] => x
  | x :: rest => x ++ " " ++ joinSp rest

/-- Every command line the source transmits, one constructor per f-string
shape:
`sR`/`sW` for the sensor registers (`S R addr`, `S W addr value`, also the
clamp registers D1EA/D1EB), `ccmR`/`ccmW`/`ccmU` for the color matrix,
`trR`/`trW` for the translation matrix, `fR`/`fW` for the FPGA space with
its two-part address (`F W addr suboff data`), `g` for the preset gamma
selector (`G value`) and `vOff` for the verbose-off command (`V OFF`). -/
inductive WireOp
  | sR (a : String)
  | sW (a v : String)
  | ccmR (a : String)
  | ccmW (a v : String)
  | ccmU
  | trR (a : String)
  | trW (a v : String)
  | fR (a so : String)
  | fW (a so v : String)
  | g (v : String)
  | vOff
deriving DecidableEq

/-- The exact line sent for each operation, token for token as in the
f-strings of the source. -/
def emitLine : WireOp → String
  | .sR a => joinSp ["S", "R", a]
  | .sW a v => joinSp ["S", "W", a, v]
  | .ccmR a => joinSp ["C", "R", a]
  | .ccmW a v => joinSp ["C", "W", a, v]
  | .ccmU => "C U"
  | .trR a => joinSp ["T", "R", a]
  | .trW a v => joinSp ["T", "W", a, v]
  | .fR a so => joinSp ["F", "R", a, so]
  | .fW a so v => joinSp ["F", "W", a, so, v]
  | .g v => joinSp ["G", v]
  | .vOff => "V OFF"

/-- All interpolated tokens of the operation are usable wire tokens. -/
def tokensOk : WireOp → Bool
  | .sR a => tokOk a
  | .sW a v => tokOk a && tokOk v
  | .ccmR a => tokOk a
  | .ccmW a v => tokOk a && tokOk v
  | .ccmU => true
  | .trR a => tokOk a
  | .trW a v => tokOk a && tokOk v
  | .fR a so => tokOk a && tokOk so
  | .fW a so v => tokOk a && tokOk so && tokOk v
  | .g v => tokOk v
  | .vOff => true

def isNS6 (s : String) : Bool :=
  s = "S" || s = "C" || s = "T" || s = "F" || s = "G" || s = "V"

def isRWU (s : String) : Bool := s = "R" || s = "W" || s = "U"

def isNS3 (s : String) : Bool := s = "S" || s = "C" || s = "T"

def isRW (s : String) : Bool := s = "R" || s = "W"

/-- The grammar asserted by the specification sentence under test: a
namespace token, an operation token, an address token and at most one
value token. -/
def claimFormat : List String → Bool
  | [ns, op, a] => isNS6 ns && isRWU op && tokOk a
  | [ns, op, a, v] => isNS6 ns && isRWU op && tokOk a && tokOk v
  | _ => false

/-- The grammar the source actually emits: three or four tokens for the
S/C/T namespaces, four or five for the two-part F addresses, the two-token
forms `C U`, `G value` and `V OFF`. -/
def extendedFormat : List String → Bool
  | ["C", "U"] => true
  | ["V", "OFF"] => true
  | ["G", v] => tokOk v
  | [ns, op, a] => isNS3 ns && isRW op && tokOk a
  | [ns, op, a, v] =>
      (isNS3 ns && isRW op && tokOk a && tokOk v) ||
      (ns = "F" && isRW op && tokOk a && tokOk v)
  | [ns, op, a, so, v] => ns = "F" && op = "W" && tokOk a && tokOk so && tokOk v
  | _ => false

/-! ## SensorLink.send_cmd: response reading -/

/-- Cleanup applied to each received line in `send_cmd`:
`text = line.decode(...).strip()` followed by `text.lstrip(..).strip()`
where the lstrip argument is the two-character set holding the prompt
character and the space, so ALL leading prompt and space characters are
removed. -/
def cleanLine (s : String) : String :=
  pyStrip (String.mk ((pyStrip s).data.dropWhile (fun c => c = '>' || c = ' ')))

/-- The read loop of `send_cmd`: return the first line that is non-empty
after cleanup; when the deadline passes with none, return the empty
string. -/
def firstResp : List String → String
  | [] => ""
  | l :: rest =>
      let t := cleanLine l
      if t = "" then firstResp rest else t

/-- Model of `SensorLink.send_cmd`.  The argument `connected` is the value
of `is_connected`, `lines` the lines the port yields before the deadline.
An `Except.error` models a raised exception; the timeout case is the
regular value `Except.ok emptyString`. -/
def sendCmd (connected : Bool) (lines : List String) : Except String String :=
  if !connected then Except.error "Not connected to device."
  else Except.ok (firstResp lines)

/-- Cleanup as the claim sentence words it: remove surrounding whitespace
and one single leading prompt character together with the whitespace that
follows it.  Stated only to compare against `cleanLine`. -/
def specCleanLine (s : String) : String :=
  let t := pyStrip s
  match t.data with
  | '>' :: rest => pyStrip (String.mk (rest.dropWhile isPySpace))
  | _ => t

/-! ## SensorLink.connect / disconnect -/

/-- Model of `SensorLink.connect`.  The stored handle is its open flag.
`openRes` is the outcome of the serial port constructor, `vOffRes` the
outcome of the verbose-off `send_cmd` on the fresh handle.  Any existing
connection is discarded first (`disconnect`), mirroring the source; the
returned pair is the handle slot after the call and the raised-or-returned
result. -/
def linkConnect (_ser : Option Bool) (openRes : Except String Bool)
    (vOffRes : Except String String) : Option Bool × Except String Bool :=
  match openRes with
  | .error e => (none, .error ("Failed to open UART port: " ++ e))
  | .ok h =>
      match vOffRes with
      | .error e => (some h, .error ("Failed to open UART port: " ++ e))
      | .ok _ => (some h, .ok true)

/-- Model of `SensorLink.is_connected`. -/
def isConnected (ser : Option Bool) : Bool :=
  match ser with
  | some o => o
  | none => false

/-! ## SensorGUI write handlers -/

inductive CmdType | S | C | T
deriving DecidableEq

inductive WMode | hex | signed
deriving DecidableEq

/-- Signed bound chosen in `_write`: 255 for the translation namespace,
99 otherwise. -/
def bndFor : CmdType → Int
  | .T => 255
  | _ => 99

/-- Dispatch of `_write` onto the link helpers, which format
`C W addr v`, `T W addr v` and `S W addr v` respectively. -/
def writeLine : CmdType → String → String → String
  | .C, a, v => emitLine (.ccmW a v)
  | .T, a, v => emitLine (.trW a v)
  | .S, a, v => emitLine (.sW a v)

/-- Model of `SensorGUI._write`: the command line sent, or `none` when the
handler returns before transmitting.  Hex mode strips an optional `0x`
marker and otherwise passes the token through verbatim; signed mode parses
a base-10 integer, checks the namespace bound and sends `str(intval)`. -/
def guiWrite (ct : CmdType) (mode : WMode) (addr raw : String) : Option String :=
  let value := pyStrip raw
  if value = "" then none
  else
    match mode with
    | .hex =>
        let v := strip0x value
        if v = "" then none else some (writeLine ct addr v)
    | .signed =>
        match parseInt10 value with
        | none => none
        | some n =>
            if n < -(bndFor ct) ∨ bndFor ct < n then none
            else some (writeLine ct addr (renderInt n))

/-- Model of `SensorGUI._write_clamp_msb`: strip, reject empty, strip an
optional `0x`, validate with `int(value, 16)` and only then send
`S W D1EA value.upper()`. -/
def clampMsbWrite (raw : String) : Option String :=
  let value := pyStrip raw
  if value = "" then none
  else
    let v := strip0x value
    match hexParseInt v with
    | none => none
    | some _ => some (emitLine (.sW "D1EA" (pyUpper v)))

/-- Model of `SensorGUI._write_blc_offset`: strip, reject empty, strip an
optional `0x`, validate with `int(value, 16)` and only then send
`F W addr 00 value.upper()`. -/
def blcOffsetWrite (addr raw : String) : Option String :=
  let value := pyStrip raw
  if value = "" then none
  else
    let v := strip0x value
    match hexParseInt v with
    | none => none
    | some _ => some (emitLine (.fW addr "00" (pyUpper v)))

/-- Model of `SensorGUI._load_preset_gamma`: strip, reject empty, strip an
optional `0x`, validate with `int(value, 16)` and send `G value.upper()`. -/
def presetGammaLoad (raw : String) : Option String :=
  let value := pyStrip raw
  if value = "" then none
  else
    let v := strip0x value
    match hexParseInt v with
    | none => none
    | some _ => some (emitLine (.g (pyUpper v)))

/-! ## .mem file loading (SensorGUI._load_gamma_file) -/

inductive LoadError
  | wrongCount (found : Nat)
  | parseFail (lineNo : Nat) (content : String)
  | outOfRange (lineNo : Nat) (val : Int)
deriving DecidableEq

/-- The stripped non-empty lines of the file, in order, as the source
computes them before the count check. -/
def nonEmptyItems (lines : List String) : List String :=
  (lines.map pyStrip).filter (fun l => l ≠ "")

/-- The parse loop of `_load_gamma_file` over the non-empty items; `i` is
the zero-based position of the head item among the non-empty items, and the
reported number is `i + 1` exactly as in the source error dialogs. -/
def parseMemItems : List String → Nat → Except LoadError (List Nat)
  | [], _ => .ok []
  | it :: rest, i =>
      match hexParseInt (strip0x (firstToken it)) with
      | none => .error (.parseFail (i + 1) it)
      | some v =>
          if v < 0 ∨ (0xFFFFFFFF : Int) < v then .error (.outOfRange (i + 1) v)
          else
            match parseMemItems rest (i + 1) with
            | .ok ws => .ok (v.toNat :: ws)
            | .error e => .error e

/-- Model of `SensorGUI._load_gamma_file` on the lines of the chosen file:
count the non-empty stripped lines, reject with the actual count when it is
not 128, otherwise parse each first token as a 32-bit hex word. -/
def loadGammaFile (lines : List String) : Except LoadError (List Nat) :=
  let items := nonEmptyItems lines
  if items.length ≠ 128 then .error (.wrongCount items.length)
  else parseMemItems items 0

/-- The stored image after a load attempt: replaced on success, untouched
on any load error (the source returns from every error branch before the
assignment to `gamma_mem`). -/
def applyGammaLoad (prev : Option (List Nat)) (lines : List String) :
    Option (List Nat) :=
  match loadGammaFile lines with
  | .ok ws => some ws
  | .error _ => prev

/-! ## Gamma bulk-transfer worker (SensorGUI._gamma_load_worker) -/

/-- The events the worker pushes back to the UI thread, in queue order:
`cmdLog` is the log of the formatted command posted before each send,
`progress` the per-index status update posted after a successful send,
`failed` the error dialog posted when a send raises, and `complete` the
final summary posted when the loop finishes all entries. -/
inductive GEvent
  | cmdLog (cmd : String)
  | progress (idx : Nat) (resp : String)
  | failed (idx : Nat) (err : String)
  | complete (count : Nat)
deriving DecidableEq

inductive JobStatus | completed | failed
deriving DecidableEq

def isCmdLog : GEvent → Bool
  | .cmdLog _ => true
  | _ => false

/-- The command formatted for one word: base address with the X conversion,
the fixed sub-offset with 02X, the data word with 08X. -/
def gammaWordCmd (base data : Nat) : String :=
  emitLine (.fW (hexStr base) (hexPad 2 0) (hexPad 8 data))

/-- The worker loop over the remaining words: `count` is the total number
of entries announced in the summary, `i` the current index, `base` the
running base address (incremented by 4 after each successful send).  The
send oracle gives the outcome of `send_cmd` for each index. -/
def gammaRunAux (send : Nat → Except String String) (count : Nat) :
    List Nat → Nat → Nat → List GEvent × JobStatus
  | [], _, _ => ([.complete count], .completed)
  | d :: rest, i, base =>
      let cmd := gammaWordCmd base d
      match send i with
      | .error e => ([.cmdLog cmd, .failed i e], .failed)
      | .ok r =>
          let p := gammaRunAux send count rest (i + 1) (base + 4)
          (.cmdLog cmd :: .progress i r :: p.1, p.2)

/-- Model of `_gamma_load_worker`: iterate over the first
`min (length mem) 128` words starting at base address 0x51700. -/
def gammaRun (mem : List Nat) (send : Nat → Except String String) :
    List GEvent × JobStatus :=
  gammaRunAux send (min mem.length 128) (mem.take 128) 0 0x51700

/-! ## Tokenizer lemmas -/

theorem splitSp_sep (a b : List Char) (ha : a.all (fun c => c != ' ') = true) :
    splitSp (a ++ ' ' :: b) = a :: splitSp b := by
  induction a with
  | nil => simp [splitSp]
  | cons c a ih =>
      simp only [List.all_cons, Bool.and_eq_true, bne_iff_ne, ne_eq] at ha
      simp [splitSp, ha.1, ih ha.2]

theorem splitSp_last (a : List Char) (ha : a.all (fun c => c != ' ') = true) :
    splitSp a = [a] := by
  induction a with
  | nil => rfl
  | cons c a ih =>
      simp only [List.all_cons, Bool.and_eq_true, bne_iff_ne, ne_eq] at ha
      simp [splitSp, ha.1, ih ha.2]

theorem tokOk_all (s : String) (h : tokOk s = true) :
    s.data.all (fun c => c != ' ') = true := by
  simp only [tokOk, Bool.and_eq_true] at h
  exact h.2

theorem joinSp_tokens : ∀ (parts : List String), parts ≠ [] →
    (∀ s ∈ parts, tokOk s = true) → tokens (joinSp parts) = parts
  | [], h, _ => absurd rfl h
  | [x], _, hall => by
      have hx := hall x (by simp)
      simp [tokens, joinSp, splitSp_last x.data (tokOk_all x hx)]
  | x :: y :: rest, _, hall => by
      have hx := hall x (by simp)
      have hsp : (" " : String).data = [' '] := rfl
      have hd : (x ++ " " ++ joinSp (y :: rest)).data
          = x.data ++ ' ' :: (joinSp (y :: rest)).data := by
        simp [String.data_append, hsp]
      have ih := joinSp_tokens (y :: rest) (by simp)
        (fun s hs => hall s (by simp [hs]))
      show ((splitSp (x ++ " " ++ joinSp (y :: rest)).data).map String.mk)
          = x :: y :: rest
      rw [hd, splitSp_sep x.data _ (tokOk_all x hx), List.map_cons]
      have hmk : String.mk x.data = x := rfl
      rw [hmk]
      have : (splitSp (joinSp (y :: rest)).data).map String.mk = y :: rest := ih
      rw [this]

/-! ## Response-reader lemmas -/

theorem firstResp_allEmpty : ∀ (lines : List String),
    (∀ l ∈ lines, cleanLine l = "") → firstResp lines = ""
  | [], _ => rfl
  | l :: rest, h => by
      have hl := h l (by simp)
      simp [firstResp, hl, firstResp_allEmpty rest (fun x hx => h x (by simp [hx]))]

theorem firstResp_immediate : ∀ (pre : List String) (l : String) (post : List String),
    (∀ p ∈ pre, cleanLine p = "") → cleanLine l ≠ "" →
    firstResp (pre ++ l :: post) = cleanLine l
  | [], l, post, _, hl => by simp [firstResp, hl]
  | p :: pre, l, post, hpre, hl => by
      have hp := hpre p (by simp)
      simp [firstResp, hp,
        firstResp_immediate pre l post (fun x hx => hpre x (by simp [hx])) hl]

/-! ## Claim C3: timeout returns the empty-string sentinel -/

/-- C3: for every command sent while connected, when every line received
before the deadline is empty after cleanup, `send_cmd` returns the
empty-string sentinel as a regular value, never as an exception. -/
theorem send_cmd_timeout_sentinel (lines : List String)
    (h : ∀ l ∈ lines, cleanLine l = "") :
    sendCmd true lines = Except.ok "" := by
  simp [sendCmd, firstResp_allEmpty lines h]

/-- Witness for C3 at a concrete line list. -/
theorem send_cmd_timeout_sentinel_witness :
    (∀ l ∈ ([">", "  "] : List String), cleanLine l = "") ∧
    sendCmd true [">", "  "] = Except.ok "" :=
  ⟨by decide, send_cmd_timeout_sentinel _ (by decide)⟩

/-! ## Claim C5: prompt-marker cleanup -/

/-- C5 counterexample: on the received line of two prompt characters and
an X, the code returns the response X, while removing exactly one leading
prompt marker as the claim words it would leave a prompt character in the
response. -/
theorem prompt_strip_multi_cex :
    sendCmd true [">>X"] = Except.ok "X" ∧
    specCleanLine ">>X" = ">X" ∧ (">X" : String) ≠ "X" := by
  refine ⟨rfl, rfl, by decide⟩

/-- C5 amended: cleanup removes ALL leading prompt and space characters
together with surrounding whitespace, and the first line non-empty after
this cleanup is returned immediately, regardless of later lines. -/
theorem prompt_strip_amended (pre : List String) (l : String) (post : List String)
    (hpre : ∀ p ∈ pre, cleanLine p = "") (hl : cleanLine l ≠ "") :
    sendCmd true (pre ++ l :: post) = Except.ok (cleanLine l) := by
  simp [sendCmd, firstResp_immediate pre l post hpre hl]

/-- Witness for the amended C5 at concrete lines. -/
theorem prompt_strip_amended_witness :
    (∀ p ∈ ([">"] : List String), cleanLine p = "") ∧ cleanLine "> hi" ≠ "" ∧
    sendCmd true ([">"] ++ "> hi" :: ["zz"]) = Except.ok (cleanLine "> hi") :=
  ⟨by decide, by decide, prompt_strip_amended [">"] "> hi" ["zz"] (by decide) (by decide)⟩

/-! ## Claim C4: validation before transmission -/

/-- C4 counterexample: in hex mode `_write` transmits an unparseable hex
value verbatim, so a malformed value is not rejected before transmission. -/
theorem hex_write_unvalidated_cex :
    guiWrite CmdType.S WMode.hex "0157" "GG" = some "S W 0157 GG" ∧
    hexParseInt "GG" = none := by
  refine ⟨rfl, rfl⟩

/-- C4 amended: signed-mode writes reject unparseable decimals before
transmission; the clamp-register and BLC-offset hex writes validate with
the hex parser and reject unparseable values before transmission; general
hex-mode register writes reject only a value that is empty after stripping
the optional 0x marker. -/
theorem write_validation_amended :
    (∀ (ct : CmdType) (addr raw : String), parseInt10 (pyStrip raw) = none →
        guiWrite ct WMode.signed addr raw = none) ∧
    (∀ (ct : CmdType) (addr raw : String), strip0x (pyStrip raw) = "" →
        guiWrite ct WMode.hex addr raw = none) ∧
    (∀ raw : String, hexParseInt (strip0x (pyStrip raw)) = none →
        clampMsbWrite raw = none) ∧
    (∀ (addr raw : String), hexParseInt (strip0x (pyStrip raw)) = none →
        blcOffsetWrite addr raw = none) := by
  refine ⟨?_, ?_, ?_, ?_⟩
  · intro ct addr raw hp
    by_cases h : pyStrip raw = ""
    · simp [guiWrite, h]
    · simp [guiWrite, h, hp]
  · intro ct addr raw hs
    by_cases h : pyStrip raw = ""
    · simp [guiWrite, h]
    · simp [guiWrite, h, hs]
  · intro raw hp
    by_cases h : pyStrip raw = ""
    · simp [clampMsbWrite, h]
    · simp [clampMsbWrite, h, hp]
  · intro addr raw hp
    by_cases h : pyStrip raw = ""
    · simp [blcOffsetWrite, h]
    · simp [blcOffsetWrite, h, hp]

/-- Witness for the amended C4 at concrete inputs. -/
theorem write_validation_amended_witness :
    parseInt10 (pyStrip "abc") = none ∧
    guiWrite CmdType.C WMode.signed "05" "abc" = none ∧
    hexParseInt (strip0x (pyStrip "GG")) = none ∧ clampMsbWrite "GG" = none :=
  ⟨by decide, write_validation_amended.1 CmdType.C "05" "abc" (by decide),
   by decide, write_validation_amended.2.2.1 "GG" (by decide)⟩

/-! ## Claim C10: connect and the half-open state -/

/-- C10 counterexample: when the port opens but the initial verbose-off
command raises, `connect` reports a failure while the link is left
connected, not in the disconnected state the claim asserts. -/
theorem connect_half_open_cex :
    (linkConnect none (Except.ok true) (Except.error "io")).2
      = Except.error ("Failed to open UART port: io") ∧
    isConnected (linkConnect none (Except.ok true) (Except.error "io")).1 = true :=
  ⟨rfl, rfl⟩

/-- C10 amended: the handle slot after `connect` never keeps the previous
connection: it is empty whenever the port-open call fails (so a failed
open leaves the link disconnected), and it holds exactly the fresh handle
whenever the port-open call succeeds, even if the follow-up verbose-off
command then makes `connect` raise. -/
theorem connect_amended (ser : Option Bool) (openRes : Except String Bool)
    (vOffRes : Except String String) :
    (∀ e, openRes = Except.error e → (linkConnect ser openRes vOffRes).1 = none) ∧
    (∀ h, openRes = Except.ok h → (linkConnect ser openRes vOffRes).1 = some h) := by
  constructor
  · intro e he; subst he; rfl
  · intro h hh; subst hh; cases vOffRes <;> rfl

/-- Witness for the amended C10 at a concrete failing open. -/
theorem connect_amended_witness :
    (Except.error "busy" : Except String Bool) = Except.error "busy" ∧
    (linkConnect (some true) (Except.error "busy") (Except.ok "k")).1 = none :=
  ⟨rfl, (connect_amended (some true) (Except.error "busy") (Except.ok "k")).1 "busy" rfl⟩

/-! ## Claim C6: wire-line grammar -/

/-- C6 counterexample: the gamma-word write command carries a base
address, a sub-offset and a data token, five tokens in all, so it does not
consist of a namespace token, an operation token, an address token and at
most one value token. -/
theorem wire_format_five_tokens_cex :
    claimFormat (tokens (gammaWordCmd 0x51700 0x12345678)) = false ∧
    gammaWordCmd 0x51700 0x12345678 = "F W 51700 00 12345678" :=
  ⟨rfl, rfl⟩

/-- C6 amended: provided the interpolated tokens are non-empty and free of
spaces, every line the source transmits matches the extended grammar: the
three- or four-token `NS OP ADDR [VALUE]` shape for the S, C and T
namespaces, the four- or five-token F shape with its sub-offset, and the
fixed two-token forms `C U`, `G VALUE` and `V OFF`. -/
theorem wire_format_amended (op : WireOp) (h : tokensOk op = true) :
    extendedFormat (tokens (emitLine op)) = true := by
  cases op with
  | ccmU => decide
  | vOff => decide
  | sR a =>
      rw [tokensOk] at h
      rw [emitLine, joinSp_tokens ["S", "R", a] (by simp)
        (by intro s hs; simp at hs; rcases hs with h1 | h1 | h1 <;> subst h1 <;>
            first | decide | exact h)]
      simp [extendedFormat, isNS3, isRW, h]
  | ccmR a =>
      rw [tokensOk] at h
      rw [emitLine, joinSp_tokens ["C", "R", a] (by simp)
        (by intro s hs; simp at hs; rcases hs with h1 | h1 | h1 <;> subst h1 <;>
            first | decide | exact h)]
      simp [extendedFormat, isNS3, isRW, h]
  | trR a =>
      rw [tokensOk] at h
      rw [emitLine, joinSp_tokens ["T", "R", a] (by simp)
        (by intro s hs; simp at hs; rcases hs with h1 | h1 | h1 <;> subst h1 <;>
            first | decide | exact h)]
      simp [extendedFormat, isNS3, isRW, h]
  | sW a v =>
      rw [tokensOk, Bool.and_eq_true] at h
      rw [emitLine, joinSp_tokens ["S", "W", a, v] (by simp)
        (by intro s hs; simp at hs; rcases hs with h1 | h1 | h1 | h1 <;> subst h1 <;>
            first | decide | exact h.1 | exact h.2)]
      simp [extendedFormat, isNS3, isRW, h.1, h.2]
  | ccmW a v =>
      rw [tokensOk, Bool.and_eq_true] at h
      rw [emitLine, joinSp_tokens ["C", "W", a, v] (by simp)
        (by intro s hs; simp at hs; rcases hs with h1 | h1 | h1 | h1 <;> subst h1 <;>
            first | decide | exact h.1 | exact h.2)]
      simp [extendedFormat, isNS3, isRW, h.1, h.2]
  | trW a v =>
      rw [tokensOk, Bool.and_eq_true] at h
      rw [emitLine, joinSp_tokens ["T", "W", a, v] (by simp)
        (by intro s hs; simp at hs; rcases hs with h1 | h1 | h1 | h1 <;> subst h1 <;>
            first | decide | exact h.1 | exact h.2)]
      simp [extendedFormat, isNS3, isRW, h.1, h.2]
  | fR a so =>
      rw [tokensOk, Bool.and_eq_true] at h
      rw [emitLine, joinSp_tokens ["F", "R", a, so] (by simp)
        (by intro s hs; simp at hs; rcases hs with h1 | h1 | h1 | h1 <;> subst h1 <;>
            first | decide | exact h.1 | exact h.2)]
      simp [extendedFormat, isNS3, isRW, h.1, h.2]
  | fW a so v =>
      rw [tokensOk, Bool.and_eq_true, Bool.and_eq_true] at h
      rw [emitLine, joinSp_tokens ["F", "W", a, so, v] (by simp)
        (by intro s hs; simp at hs;
            rcases hs with h1 | h1 | h1 | h1 | h1 <;> subst h1 <;>
            first | decide | exact h.1.1 | exact h.1.2 | exact h.2)]
      simp [extendedFormat, h.1.1, h.1.2, h.2]
  | g v =>
      rw [tokensOk] at h
      rw [emitLine, joinSp_tokens ["G", v] (by simp)
        (by intro s hs; simp at hs; rcases hs with h1 | h1 <;> subst h1 <;>
            first | decide | exact h)]
      simp [extendedFormat, h]

/-- Witness for the amended C6 at a concrete gamma-word operation. -/
theorem wire_format_amended_witness :
    tokensOk (WireOp.fW "51700" "00" "0000ABCD") = true ∧
    extendedFormat (tokens (emitLine (WireOp.fW "51700" "00" "0000ABCD"))) = true :=
  ⟨by decide, wire_format_amended (WireOp.fW "51700" "00" "0000ABCD") (by decide)⟩

/-! ## Signed value codec lemmas -/

theorem parseInt10_empty : parseInt10 "" = none := rfl

set_option maxRecDepth 4000 in
/-- Round trip for every magnitude the signed namespaces allow: rendering
then reparsing gives the integer back, and the rendered string is already
stripped. -/
theorem roundtrip255 : ∀ m : Nat, m ≤ 255 →
    parseInt10 (renderInt (Int.ofNat m)) = some (Int.ofNat m) ∧
    parseInt10 (renderInt (-(Int.ofNat m))) = some (-(Int.ofNat m)) ∧
    pyStrip (renderInt (Int.ofNat m)) = renderInt (Int.ofNat m) ∧
    pyStrip (renderInt (-(Int.ofNat m))) = renderInt (-(Int.ofNat m)) := by decide

/-! ## Claim C7: out-of-range signed writes are rejected -/

/-- C7: a signed-mode value that parses but lies outside the namespace
bound (255 for translation, 99 otherwise) is rejected and no command line
is produced. -/
theorem signed_out_of_range_rejected (ct : CmdType) (addr raw : String) (n : Int)
    (hp : parseInt10 (pyStrip raw) = some n)
    (hout : n < -(bndFor ct) ∨ bndFor ct < n) :
    guiWrite ct WMode.signed addr raw = none := by
  have hne : pyStrip raw ≠ "" := by
    intro h
    rw [h, parseInt10_empty] at hp
    cases hp
  rcases hout with h1 | h1 <;> simp [guiWrite, hne, hp, h1]

/-- Witness for C7 at a concrete out-of-range CCM write. -/
theorem signed_out_of_range_rejected_witness :
    parseInt10 (pyStrip "100") = some 100 ∧
    ((100 : Int) < -(bndFor CmdType.C) ∨ bndFor CmdType.C < 100) ∧
    guiWrite CmdType.C WMode.signed "05" "100" = none :=
  ⟨by decide, by decide,
   signed_out_of_range_rejected CmdType.C "05" "100" 100 (by decide) (by decide)⟩

/-! ## Claim C8: canonical decimal normalisation -/

/-- C8: a signed-mode value inside the bound is sent as the canonical
decimal string of the parsed integer, the canonical string reparses to the
same integer, and running the write on the canonical string produces the
same command, so the conversion is idempotent on its own output. -/
theorem signed_canonical_roundtrip (ct : CmdType) (addr raw : String) (n : Int)
    (hp : parseInt10 (pyStrip raw) = some n)
    (hlo : -(bndFor ct) ≤ n) (hhi : n ≤ bndFor ct) :
    guiWrite ct WMode.signed addr raw = some (writeLine ct addr (renderInt n)) ∧
    parseInt10 (renderInt n) = some n ∧
    guiWrite ct WMode.signed addr (renderInt n) = guiWrite ct WMode.signed addr raw := by
  have hb : bndFor ct ≤ 255 := by cases ct <;> decide
  have hmn : n.natAbs ≤ 255 := by
    rcases Int.natAbs_eq n with he | he <;> omega
  have hrt : parseInt10 (renderInt n) = some n ∧ pyStrip (renderInt n) = renderInt n := by
    rcases Int.natAbs_eq n with he | he
    · have hr := roundtrip255 n.natAbs hmn
      rw [he]
      exact ⟨hr.1, hr.2.2.1⟩
    · have hr := roundtrip255 n.natAbs hmn
      rw [he]
      exact ⟨hr.2.1, hr.2.2.2⟩
  have hne : pyStrip raw ≠ "" := by
    intro h
    rw [h, parseInt10_empty] at hp
    cases hp
  have hnout : ¬(n < -(bndFor ct) ∨ bndFor ct < n) := by omega
  have h1 : guiWrite ct WMode.signed addr raw = some (writeLine ct addr (renderInt n)) := by
    simp [guiWrite, hne, hp, hnout]
  have hne2 : renderInt n ≠ "" := by
    intro h
    have hr1 := hrt.1
    rw [h, parseInt10_empty] at hr1
    cases hr1
  have h3 : guiWrite ct WMode.signed addr (renderInt n) = some (writeLine ct addr (renderInt n)) := by
    simp [guiWrite, hrt.2, hne2, hrt.1, hnout]
  exact ⟨h1, hrt.1, by rw [h3, h1]⟩

/-- Witness for C8 at the concrete input of a plus sign and a leading
zero, which normalises to the bare digit. -/
theorem signed_canonical_roundtrip_witness :
    parseInt10 (pyStrip "+07") = some 7 ∧
    -(bndFor CmdType.C) ≤ (7 : Int) ∧ (7 : Int) ≤ bndFor CmdType.C ∧
    guiWrite CmdType.C WMode.signed "05" "+07" = some (writeLine CmdType.C "05" (renderInt 7)) ∧
    parseInt10 (renderInt 7) = some 7 ∧
    guiWrite CmdType.C WMode.signed "05" (renderInt 7)
      = guiWrite CmdType.C WMode.signed "05" "+07" := by
  have h := signed_canonical_roundtrip CmdType.C "05" "+07" 7 (by decide) (by decide) (by decide)
  exact ⟨by decide, by decide, by decide, h.1, h.2.1, h.2.2⟩

/-! ## Gamma file loader lemmas -/

theorem parseMemItems_spec : ∀ (items : List String) (i : Nat),
    (∀ ws, parseMemItems items i = .ok ws →
        ws.length = items.length ∧ ∀ w ∈ ws, w ≤ 0xFFFFFFFF) ∧
    (∀ k c, parseMemItems items i = .error (.parseFail k c) →
        ∃ j, j < items.length ∧ k = i + j + 1 ∧ items.getD j "" = c ∧
          hexParseInt (strip0x (firstToken c)) = none) ∧
    (∀ k v, parseMemItems items i = .error (.outOfRange k v) →
        ∃ j, j < items.length ∧ k = i + j + 1 ∧
          hexParseInt (strip0x (firstToken (items.getD j ""))) = some v ∧
          (v < 0 ∨ (0xFFFFFFFF : Int) < v))
  | [], i => by
      refine ⟨?_, ?_, ?_⟩
      · intro ws h
        simp only [parseMemItems, Except.ok.injEq] at h
        subst h
        simp
      · intro k c h
        simp [parseMemItems] at h
      · intro k v h
        simp [parseMemItems] at h
  | it :: rest, i => by
      cases hpar : hexParseInt (strip0x (firstToken it)) with
      | none =>
          have hstep : parseMemItems (it :: rest) i = .error (.parseFail (i + 1) it) := by
            simp only [parseMemItems, hpar]
          refine ⟨?_, ?_, ?_⟩
          · intro ws h
            rw [hstep] at h
            exact Except.noConfusion h
          · intro k c h
            rw [hstep] at h
            injection h with h2
            injection h2 with hk hc
            subst hk
            subst hc
            exact ⟨0, by simp, by omega, rfl, hpar⟩
          · intro k v h
            rw [hstep] at h
            injection h with h2
            exact LoadError.noConfusion h2
      | some v0 =>
          by_cases hrange : v0 < 0 ∨ (0xFFFFFFFF : Int) < v0
          · have hstep : parseMemItems (it :: rest) i = .error (.outOfRange (i + 1) v0) := by
              simp only [parseMemItems, hpar, if_pos hrange]
            refine ⟨?_, ?_, ?_⟩
            · intro ws h
              rw [hstep] at h
              exact Except.noConfusion h
            · intro k c h
              rw [hstep] at h
              injection h with h2
              exact LoadError.noConfusion h2
            · intro k v h
              rw [hstep] at h
              injection h with h2
              injection h2 with hk hv
              subst hk
              subst hv
              exact ⟨0, by simp, by omega, hpar, hrange⟩
          · have ih := parseMemItems_spec rest (i + 1)
            cases hrec : parseMemItems rest (i + 1) with
            | ok ws0 =>
                have hstep : parseMemItems (it :: rest) i = .ok (v0.toNat :: ws0) := by
                  simp only [parseMemItems, hpar, if_neg hrange, hrec]
                refine ⟨?_, ?_, ?_⟩
                · intro ws h
                  rw [hstep] at h
                  injection h with h2
                  subst h2
                  have hih := ih.1 ws0 hrec
                  constructor
                  · simp [hih.1]
                  · intro w hw
                    rcases List.mem_cons.mp hw with hw0 | hw0
                    · subst hw0
                      omega
                    · exact hih.2 w hw0
                · intro k c h
                  rw [hstep] at h
                  exact Except.noConfusion h
                · intro k v h
                  rw [hstep] at h
                  exact Except.noConfusion h
            | error e0 =>
                have hstep : parseMemItems (it :: rest) i = .error e0 := by
                  simp only [parseMemItems, hpar, if_neg hrange, hrec]
                refine ⟨?_, ?_, ?_⟩
                · intro ws h
                  rw [hstep] at h
                  exact Except.noConfusion h
                · intro k c h
                  rw [hstep] at h
                  have he : e0 = LoadError.parseFail k c := Except.error.inj h
                  obtain ⟨j, hj1, hj2, hj3, hj4⟩ := ih.2.1 k c (by rw [hrec, he])
                  exact ⟨j + 1, by simpa using hj1, by omega, by simpa using hj3, hj4⟩
                · intro k v h
                  rw [hstep] at h
                  have he : e0 = LoadError.outOfRange k v := Except.error.inj h
                  obtain ⟨j, hj1, hj2, hj3, hj4⟩ := ih.2.2 k v (by rw [hrec, he])
                  exact ⟨j + 1, by simpa using hj1, by omega, by simpa using hj3, hj4⟩

/-! ## Claim C9: .mem load validation -/

set_option maxRecDepth 40000 in
/-- C9 counterexample: with an empty first file line, the unparseable
token on file line two is reported as line one, the position among the
non-empty lines, not its file line number. -/
theorem gamma_load_line_number_cex :
    loadGammaFile ("" :: "ZZ" :: List.replicate 127 "0")
      = Except.error (LoadError.parseFail 1 "ZZ") ∧
    ("" :: "ZZ" :: List.replicate 127 "0").getD 0 "?" = "" :=
  ⟨rfl, rfl⟩

/-- C9 amended: a load either succeeds storing exactly 128 words, each at
most the 32-bit maximum, or fails with a diagnostic: a non-empty-line
count other than 128 is reported with the actual count, and an unparseable
first token or an out-of-range value is reported with its 1-based position
among the non-empty lines; on every failing load the stored image is
unchanged. -/
theorem gamma_load_spec_amended (lines : List String) (prev : Option (List Nat)) :
    (∀ ws, loadGammaFile lines = .ok ws →
        ws.length = 128 ∧ ∀ w ∈ ws, w ≤ 0xFFFFFFFF) ∧
    (∀ e, loadGammaFile lines = .error e → applyGammaLoad prev lines = prev) ∧
    ((nonEmptyItems lines).length ≠ 128 →
        loadGammaFile lines = .error (.wrongCount (nonEmptyItems lines).length)) ∧
    (∀ k c, loadGammaFile lines = .error (.parseFail k c) →
        ∃ j, j < 128 ∧ k = j + 1 ∧ (nonEmptyItems lines).getD j "" = c ∧
          hexParseInt (strip0x (firstToken c)) = none) ∧
    (∀ k v, loadGammaFile lines = .error (.outOfRange k v) →
        ∃ j, j < 128 ∧ k = j + 1 ∧
          hexParseInt (strip0x (firstToken ((nonEmptyItems lines).getD j ""))) = some v ∧
          (v < 0 ∨ (0xFFFFFFFF : Int) < v)) := by
  by_cases hlen : (nonEmptyItems lines).length = 128
  · have hload : loadGammaFile lines = parseMemItems (nonEmptyItems lines) 0 := by
      simp [loadGammaFile, hlen]
    have hspec := parseMemItems_spec (nonEmptyItems lines) 0
    refine ⟨?_, ?_, ?_, ?_, ?_⟩
    · intro ws h
      rw [hload] at h
      have hok := hspec.1 ws h
      exact ⟨by rw [hok.1, hlen], hok.2⟩
    · intro e h
      simp [applyGammaLoad, h]
    · intro hne
      exact absurd hlen hne
    · intro k c h
      rw [hload] at h
      obtain ⟨j, hj1, hj2, hj3, hj4⟩ := hspec.2.1 k c h
      exact ⟨j, by omega, by omega, hj3, hj4⟩
    · intro k v h
      rw [hload] at h
      obtain ⟨j, hj1, hj2, hj3, hj4⟩ := hspec.2.2 k v h
      exact ⟨j, by omega, by omega, hj3, hj4⟩
  · have hload : loadGammaFile lines = .error (.wrongCount (nonEmptyItems lines).length) := by
      simp [loadGammaFile, hlen]
    refine ⟨?_, ?_, ?_, ?_, ?_⟩
    · intro ws h
      rw [hload] at h
      exact Except.noConfusion h
    · intro e h
      simp [applyGammaLoad, h]
    · intro _
      exact hload
    · intro k c h
      rw [hload] at h
      injection h with h2
      exact LoadError.noConfusion h2
    · intro k v h
      rw [hload] at h
      injection h with h2
      exact LoadError.noConfusion h2

/-- Witness for the amended C9 at a file with five lines. -/
theorem gamma_load_spec_amended_witness :
    (nonEmptyItems (List.replicate 5 "0")).length ≠ 128 ∧
    loadGammaFile (List.replicate 5 "0")
      = Except.error (LoadError.wrongCount (nonEmptyItems (List.replicate 5 "0")).length) :=
  ⟨by decide, (gamma_load_spec_amended (List.replicate 5 "0") none).2.2.1 (by decide)⟩

/-! ## Hex rendering lemmas -/

theorem hexChars_length_le : ∀ (fuel n k : Nat), n < 16 ^ k → k ≤ fuel →
    (hexChars fuel n).length ≤ k
  | 0, _, _, _, _ => by simp [hexChars]
  | fuel + 1, n, k, hn, hk => by
      rw [hexChars]
      by_cases h0 : n = 0
      · simp [h0]
      · rw [if_neg h0]
        have hkpos : k ≠ 0 := by
          intro hk0
          subst hk0
          simp at hn
          omega
        obtain ⟨k2, rfl⟩ : ∃ k2, k = k2 + 1 := ⟨k - 1, by omega⟩
        have hdiv : n / 16 < 16 ^ k2 := by
          apply Nat.div_lt_of_lt_mul
          calc n < 16 ^ (k2 + 1) := hn
            _ = 16 * 16 ^ k2 := by ring
        have hrec := hexChars_length_le fuel (n / 16) k2 hdiv (by omega)
        simp only [List.length_append, List.length_cons, List.length_nil]
        omega

theorem hexDigitChar_upHex : ∀ r, r < 16 → isUpHex (hexDigitChar r) = true := by decide

theorem hexChars_all_upHex : ∀ (fuel n : Nat), (hexChars fuel n).all isUpHex = true
  | 0, _ => by simp [hexChars]
  | fuel + 1, n => by
      rw [hexChars]
      by_cases h0 : n = 0
      · simp [h0]
      · rw [if_neg h0, List.all_append, hexChars_all_upHex fuel (n / 16)]
        simp [hexDigitChar_upHex (n % 16) (Nat.mod_lt n (by norm_num))]

theorem hexStr_length_le8 (n : Nat) (h : n ≤ 0xFFFFFFFF) :
    (hexStr n).data.length ≤ 8 := by
  rw [hexStr]
  by_cases h0 : n = 0
  · simp [h0]
  · rw [if_neg h0]
    have h16 : (16 : Nat) ^ 8 = 4294967296 := by norm_num
    exact hexChars_length_le 16 n 8 (by omega) (by omega)

theorem hexStr_all_upHex (n : Nat) : (hexStr n).data.all isUpHex = true := by
  rw [hexStr]
  by_cases h0 : n = 0
  · subst h0
    decide
  · rw [if_neg h0]
    exact hexChars_all_upHex 16 n

theorem hexPad8_spec (d : Nat) (h : d ≤ 0xFFFFFFFF) :
    (hexPad 8 d).length = 8 ∧ (hexPad 8 d).data.all isUpHex = true := by
  have hlen := hexStr_length_le8 d h
  constructor
  · rw [hexPad, String.length_append]
    have h1 : (String.mk (List.replicate (8 - (hexStr d).data.length) '0')).length
        = 8 - (hexStr d).data.length := by
      show (List.replicate (8 - (hexStr d).data.length) '0').length = _
      simp
    have h2 : (hexStr d).length = (hexStr d).data.length := rfl
    rw [h1, h2]
    omega
  · rw [hexPad, String.data_append, List.all_append, Bool.and_eq_true]
    constructor
    · show (List.replicate (8 - (hexStr d).data.length) '0').all isUpHex = true
      simp only [List.all_eq_true]
      intro c hc
      rw [List.eq_of_mem_replicate hc]
      decide
    · exact hexStr_all_upHex d

/-! ## Bulk transfer trace lemmas -/

theorem range_flatMap_succ {α : Type} (F : Nat → List α) (n : Nat) :
    (List.range (n + 1)).flatMap F
      = F 0 ++ (List.range n).flatMap (fun j => F (j + 1)) := by
  induction n with
  | zero => simp [show List.range 1 = [0] from rfl]
  | succ n ih =>
      calc (List.range (n + 1 + 1)).flatMap F
          = (List.range (n + 1)).flatMap F ++ F (n + 1) := by
            rw [List.range_succ, List.flatMap_append]
            simp
        _ = (F 0 ++ (List.range n).flatMap (fun j => F (j + 1))) ++ F (n + 1) := by
            rw [ih]
        _ = F 0 ++ ((List.range n).flatMap (fun j => F (j + 1)) ++ F (n + 1)) := by
            rw [List.append_assoc]
        _ = F 0 ++ (List.range (n + 1)).flatMap (fun j => F (j + 1)) := by
            rw [List.range_succ, List.flatMap_append]
            simp

theorem countP_pair_flatMap {α : Type} (p : α → Bool) (A B : Nat → α)
    (hA : ∀ j, p (A j) = true) (hB : ∀ j, p (B j) = false) :
    ∀ n : Nat, ((List.range n).flatMap (fun j => [A j, B j])).countP p = n := by
  intro n
  induction n with
  | zero => simp
  | succ n ih =>
      rw [List.range_succ, List.flatMap_append, List.countP_append, ih]
      simp [List.countP_cons, hA, hB]

theorem flatMap_congr_on {α β : Type} (l : List α) (f g : α → List β)
    (h : ∀ a ∈ l, f a = g a) : l.flatMap f = l.flatMap g := by
  induction l with
  | nil => rfl
  | cons a l ih =>
      simp only [List.flatMap_cons, h a (by simp),
        ih (fun x hx => h x (by simp [hx]))]

theorem gammaRunAux_allOk (send : Nat → Except String String) (resp : Nat → String)
    (hok : ∀ j, send j = .ok (resp j)) : ∀ (l : List Nat) (count i base : Nat),
    gammaRunAux send count l i base =
      ((List.range l.length).flatMap (fun j =>
        [GEvent.cmdLog (gammaWordCmd (base + 4 * j) (l.getD j 0)),
         GEvent.progress (i + j) (resp (i + j))]) ++ [GEvent.complete count],
       JobStatus.completed)
  | [], count, i, base => by simp [gammaRunAux]
  | d :: rest, count, i, base => by
      have ih := gammaRunAux_allOk send resp hok rest count (i + 1) (base + 4)
      have h1 : ∀ j : Nat, base + 4 * (j + 1) = base + 4 + 4 * j := fun j => by ring
      have h2 : ∀ j : Nat, i + (j + 1) = i + 1 + j := fun j => by ring
      have hstep : gammaRunAux send count (d :: rest) i base
          = (GEvent.cmdLog (gammaWordCmd base d) :: GEvent.progress i (resp i)
              :: (gammaRunAux send count rest (i + 1) (base + 4)).1,
             (gammaRunAux send count rest (i + 1) (base + 4)).2) := by
        rw [gammaRunAux, hok i]
      rw [hstep, ih]
      simp only [List.length_cons, range_flatMap_succ, List.getD_cons_zero,
        List.getD_cons_succ, Nat.mul_zero, Nat.add_zero, h1]
      have hcong : (List.range rest.length).flatMap (fun j =>
            [GEvent.cmdLog (gammaWordCmd (base + 4 + 4 * j) (rest.getD j 0)),
             GEvent.progress (i + (j + 1)) (resp (i + (j + 1)))])
          = (List.range rest.length).flatMap (fun j =>
            [GEvent.cmdLog (gammaWordCmd (base + 4 + 4 * j) (rest.getD j 0)),
             GEvent.progress (i + 1 + j) (resp (i + 1 + j))]) := by
        apply flatMap_congr_on
        intro j _
        rw [h2 j]
      rw [hcong]
      simp [List.cons_append, List.append_assoc]

/-! ## Claim C1: successful bulk transfer -/

/-- C1: over a loaded 128-word image and a transport on which every send
succeeds, the worker emits, in index order, exactly one command log
followed by one progress event per index, the command for index i being
the gamma word command at base 0x51700 + 4i with the fixed 00 sub-offset,
ends with the summary event counting 128 entries and the completed status,
issues exactly 128 write commands, and each data token is exactly eight
uppercase hex digits. -/
theorem gamma_bulk_success (mem : List Nat) (send : Nat → Except String String)
    (resp : Nat → String) (hlen : mem.length = 128)
    (hok : ∀ i, send i = .ok (resp i)) (hw : ∀ w ∈ mem, w ≤ 0xFFFFFFFF) :
    gammaRun mem send =
      ((List.range 128).flatMap (fun i =>
        [GEvent.cmdLog (gammaWordCmd (0x51700 + 4 * i) (mem.getD i 0)),
         GEvent.progress i (resp i)]) ++ [GEvent.complete 128],
       JobStatus.completed) ∧
    (gammaRun mem send).1.countP isCmdLog = 128 ∧
    (∀ i, i < 128 → (hexPad 8 (mem.getD i 0)).length = 8 ∧
        (hexPad 8 (mem.getD i 0)).data.all isUpHex = true) := by
  have htake : mem.take 128 = mem := by
    rw [← hlen]
    exact List.take_length mem
  have hmin : min mem.length 128 = 128 := by omega
  have hmain : gammaRun mem send =
      ((List.range 128).flatMap (fun i =>
        [GEvent.cmdLog (gammaWordCmd (0x51700 + 4 * i) (mem.getD i 0)),
         GEvent.progress i (resp i)]) ++ [GEvent.complete 128],
       JobStatus.completed) := by
    rw [gammaRun, htake, hmin, gammaRunAux_allOk send resp hok mem 128 0 0x51700, hlen]
    simp [Nat.zero_add]
  refine ⟨hmain, ?_, ?_⟩
  · rw [hmain]
    have hcount := countP_pair_flatMap isCmdLog
      (fun j => GEvent.cmdLog (gammaWordCmd (0x51700 + 4 * j) (mem.getD j 0)))
      (fun j => GEvent.progress j (resp j)) (fun _ => rfl) (fun _ => rfl) 128
    simp only at hcount
    show (_ ++ [GEvent.complete 128]).countP isCmdLog = 128
    rw [List.countP_append, hcount]
    simp [List.countP_cons, isCmdLog]
  · intro i hi
    have hmem : mem.getD i 0 ∈ mem := by
      have hlt : i < mem.length := by omega
      rw [List.getD_eq_getElem mem 0 hlt]
      exact List.getElem_mem hlt
    exact hexPad8_spec (mem.getD i 0) (hw _ hmem)

/-- Witness for C1 at a concrete 128-word image and an all-ok transport. -/
theorem gamma_bulk_success_witness :
    (List.replicate 128 5).length = 128 ∧
    (gammaRun (List.replicate 128 5) (fun _ => Except.ok "k")).2 = JobStatus.completed ∧
    (gammaRun (List.replicate 128 5) (fun _ => Except.ok "k")).1.countP isCmdLog = 128 := by
  have h := gamma_bulk_success (List.replicate 128 5) (fun _ => Except.ok "k")
    (fun _ => "k") (by simp) (fun _ => rfl)
    (by
      intro w hw
      have := List.eq_of_mem_replicate hw
      omega)
  exact ⟨by simp, by rw [h.1], h.2.1⟩

theorem gammaRunAux_failAt (send : Nat → Except String String) (resp : Nat → String)
    (e : String) : ∀ (m : Nat) (l : List Nat) (count i base : Nat),
    m < l.length → (∀ j, j < m → send (i + j) = .ok (resp (i + j))) →
    send (i + m) = .error e →
    gammaRunAux send count l i base =
      ((List.range m).flatMap (fun j =>
        [GEvent.cmdLog (gammaWordCmd (base + 4 * j) (l.getD j 0)),
         GEvent.progress (i + j) (resp (i + j))]) ++
       [GEvent.cmdLog (gammaWordCmd (base + 4 * m) (l.getD m 0)),
        GEvent.failed (i + m) e],
       JobStatus.failed)
  | 0, l, count, i, base, hm, _, hf => by
      obtain ⟨d, rest, rfl⟩ : ∃ d rest, l = d :: rest := by
        cases l with
        | nil => simp at hm
        | cons d rest => exact ⟨d, rest, rfl⟩
      have hfi : send i = .error e := by simpa using hf
      rw [gammaRunAux, hfi]
      simp
  | m + 1, l, count, i, base, hm, hok, hf => by
      obtain ⟨d, rest, rfl⟩ : ∃ d rest, l = d :: rest := by
        cases l with
        | nil => simp at hm
        | cons d rest => exact ⟨d, rest, rfl⟩
      have hoki : send i = .ok (resp i) := by simpa using hok 0 (by omega)
      have hokr : ∀ j, j < m → send (i + 1 + j) = .ok (resp (i + 1 + j)) := by
        intro j hj
        have ha : i + 1 + j = i + (j + 1) := by omega
        rw [ha]
        exact hok (j + 1) (by omega)
      have hfr : send (i + 1 + m) = .error e := by
        have ha : i + 1 + m = i + (m + 1) := by omega
        rw [ha]
        exact hf
      have ih := gammaRunAux_failAt send resp e m rest count (i + 1) (base + 4)
        (by simpa using hm) hokr hfr
      have h1 : ∀ j : Nat, base + 4 * (j + 1) = base + 4 + 4 * j := fun j => by ring
      have hstep : gammaRunAux send count (d :: rest) i base
          = (GEvent.cmdLog (gammaWordCmd base d) :: GEvent.progress i (resp i)
              :: (gammaRunAux send count rest (i + 1) (base + 4)).1,
             (gammaRunAux send count rest (i + 1) (base + 4)).2) := by
        rw [gammaRunAux, hoki]
      rw [hstep, ih]
      simp only [range_flatMap_succ, List.getD_cons_zero, List.getD_cons_succ,
        Nat.mul_zero, Nat.add_zero, h1]
      have hcong : (List.range m).flatMap (fun j =>
            [GEvent.cmdLog (gammaWordCmd (base + 4 + 4 * j) (rest.getD j 0)),
             GEvent.progress (i + (j + 1)) (resp (i + (j + 1)))])
          = (List.range m).flatMap (fun j =>
            [GEvent.cmdLog (gammaWordCmd (base + 4 + 4 * j) (rest.getD j 0)),
             GEvent.progress (i + 1 + j) (resp (i + 1 + j))]) := by
        apply flatMap_congr_on
        intro j _
        rw [show i + (j + 1) = i + 1 + j from by omega]
      rw [hcong]
      have hi2 : i + (m + 1) = i + 1 + m := by omega
      rw [hi2]
      simp [List.cons_append, List.append_assoc]

/-! ## Claim C2: abort on transport error -/

/-- C2: when the send at index k raises while all earlier sends succeed,
the worker logs and attempts exactly the commands for indices 0 through k,
emits progress for indices below k, then the single failure event, never
emits the completion summary, and ends in the failed status; no event for
any later index exists and nothing is retried. -/
theorem gamma_bulk_abort_on_error (mem : List Nat) (send : Nat → Except String String)
    (resp : Nat → String) (k : Nat) (e : String)
    (hlen : mem.length = 128) (hk : k < 128)
    (hok : ∀ j, j < k → send j = .ok (resp j)) (hf : send k = .error e) :
    gammaRun mem send =
      ((List.range k).flatMap (fun j =>
        [GEvent.cmdLog (gammaWordCmd (0x51700 + 4 * j) (mem.getD j 0)),
         GEvent.progress j (resp j)]) ++
       [GEvent.cmdLog (gammaWordCmd (0x51700 + 4 * k) (mem.getD k 0)),
        GEvent.failed k e],
       JobStatus.failed) ∧
    (gammaRun mem send).1.countP isCmdLog = k + 1 ∧
    (∀ n, GEvent.complete n ∉ (gammaRun mem send).1) := by
  have htake : mem.take 128 = mem := by
    rw [← hlen]
    exact List.take_length mem
  have hmin : min mem.length 128 = 128 := by omega
  have hrun := gammaRunAux_failAt send resp e k mem 128 0 0x51700 (by omega)
    (by
      intro j hj
      simpa using hok j hj)
    (by simpa using hf)
  have hmain : gammaRun mem send =
      ((List.range k).flatMap (fun j =>
        [GEvent.cmdLog (gammaWordCmd (0x51700 + 4 * j) (mem.getD j 0)),
         GEvent.progress j (resp j)]) ++
       [GEvent.cmdLog (gammaWordCmd (0x51700 + 4 * k) (mem.getD k 0)),
        GEvent.failed k e],
       JobStatus.failed) := by
    rw [gammaRun, htake, hmin, hrun]
    simp [Nat.zero_add]
  refine ⟨hmain, ?_, ?_⟩
  · rw [hmain]
    have hcount := countP_pair_flatMap isCmdLog
      (fun j => GEvent.cmdLog (gammaWordCmd (0x51700 + 4 * j) (mem.getD j 0)))
      (fun j => GEvent.progress j (resp j)) (fun _ => rfl) (fun _ => rfl) k
    simp only at hcount
    show (_ ++ [GEvent.cmdLog _, GEvent.failed k e]).countP isCmdLog = k + 1
    rw [List.countP_append, hcount]
    simp [List.countP_cons, isCmdLog]
  · intro n hn
    rw [hmain] at hn
    simp only [List.mem_append, List.mem_flatMap, List.mem_range] at hn
    rcases hn with ⟨j, _, hj⟩ | hj <;> simp at hj

/-- Witness for C2 at a concrete failure on the fourth index. -/
theorem gamma_bulk_abort_on_error_witness :
    (List.replicate 128 7).length = 128 ∧ 3 < 128 ∧
    (∀ j, j < 3 → (if j < 3 then Except.ok "k" else Except.error "boom") = Except.ok "k") ∧
    (gammaRun (List.replicate 128 7)
      (fun i => if i < 3 then Except.ok "k" else Except.error "boom")).2
        = JobStatus.failed ∧
    (gammaRun (List.replicate 128 7)
      (fun i => if i < 3 then Except.ok "k" else Except.error "boom")).1.countP isCmdLog
        = 4 := by
  have h := gamma_bulk_abort_on_error (List.replicate 128 7)
    (fun i => if i < 3 then Except.ok "k" else Except.error "boom")
    (fun _ => "k") 3 "boom" (by simp) (by omega)
    (by
      intro j hj
      simp [hj])
    (by simp)
  refine ⟨by simp, by omega, ?_, by rw [h.1], h.2.1⟩
  intro j hj
  simp [hj]
